import Mathlib

/-!
Verification of the overlapping request/response pipeline scheduler in
`bin/pipeline_run.py` (the `main` coroutine and the `__main__` guard).

The scheduler is shallowly embedded as a deterministic interpreter that is
driven by an explicit *schedule*: a list of decisions saying, at each await
point, which of the in-flight pipeline invocations completes and with what
outcome (success with a result record, an exception, or — after a
cancellation request — termination as cancelled), or that a
`KeyboardInterrupt` is delivered at that await point.  The external
collaborator `rhasspy3.pipeline.run` is opaque: its outcomes are supplied by
the schedule.  Each run produces the ordered list of observable events
(invocation starts, completions, cancellation requests, emitted result
records) together with how the run ended.
-/

namespace PipelineRun

/-- Modelled from the spec: `rhasspy3.asr.Transcript` (not under `src/`):
the transcript text produced by speech to text. -/
structure Transcript where
  text : String
deriving DecidableEq, Repr

/-- Modelled from the spec: `rhasspy3.wake.Detection` (not under `src/`):
a wake word detection carrying the wake word name. -/
structure Detection where
  name : String
deriving DecidableEq, Repr

/-- Modelled from the spec: `rhasspy3.handle.Handled` (not under `src/`):
a pre-supplied handle response carrying its text. -/
structure Handled where
  text : String
deriving DecidableEq, Repr

/-- Modelled from the spec: the result record of one pipeline invocation
(`TurnResult` in the spec, `PipelineResult` in the code).  `bin/pipeline_run.py`
reads exactly two of its fields — `wake_detection` and `asr_transcript` — and
serializes the whole record with `to_dict`; all remaining stage outputs are
abstracted into an opaque `payload`.  Serialization is modelled as the record
value itself. -/
structure PipelineResult where
  wake_detection : Option Detection := none
  asr_transcript : Option Transcript := none
  payload : Nat := 0
deriving DecidableEq, Repr

/-- The command line arguments of `bin/pipeline_run.py` after `parse_args`
(lines 27-68).  String options are `none` when not given. -/
structure Args where
  pipeline : String := "default"
  stop_after : Option String := none
  wake_name : Option String := none
  asr_wav : Option String := none
  asr_text : Option String := none
  intent_json : Option String := none
  handle_text : Option String := none
  tts_wav : Option String := none
  samples_per_chunk : Nat := 1024
  asr_chunks_to_buffer : Nat := 0
  loop : Bool := false
deriving DecidableEq, Repr

/-- Python truthiness of an optional string argument (`if args.wake_name:`
etc.): `None` and the empty string are falsy. -/
def truthy : Option String → Bool
  | none => false
  | some s => s ≠ ""

/-- The local variables `main` prepares from the arguments before any
invocation (lines 71-103): the pre-supplied stage results.  The open WAV file
handles are modelled by their path strings; the parsed intent event
(lines 87-93, external `Event`/`Intent` parser not under `src/`) is modelled
as the raw JSON payload passed through. -/
structure Locals where
  wake_detection : Option Detection
  asr_wav_in : Option String
  asr_transcript : Option Transcript
  intent_result : Option String
  handle_result : Option Handled
  tts_wav_in : Option String
deriving DecidableEq, Repr

/-- Lines 71-103 of `main`: build the pre-supplied stage results from the
arguments.  No consistency check of any kind is performed here. -/
def setupLocals (args : Args) : Locals where
  wake_detection := if truthy args.wake_name then args.wake_name.map Detection.mk else none
  asr_wav_in := if truthy args.asr_wav then args.asr_wav else none
  asr_transcript := if truthy args.asr_text then args.asr_text.map Transcript.mk else none
  intent_result := if truthy args.intent_json then args.intent_json else none
  handle_result := if truthy args.handle_text then args.handle_text.map Handled.mk else none
  tts_wav_in := if truthy args.tts_wav then args.tts_wav else none

/-- The keyword arguments of one `run_pipeline` invocation
(`rhasspy3.pipeline.run`); an absent keyword is `none`. -/
structure InvArgs where
  pipeline : String
  samples_per_chunk : Nat
  asr_chunks_to_buffer : Nat
  wake_detection : Option Detection
  asr_wav_in : Option String
  asr_transcript : Option Transcript
  intent_result : Option String
  handle_result : Option Handled
  tts_wav_in : Option String
  stop_after : Option String
deriving DecidableEq, Repr

/-- Everything of `main`'s environment that is fixed for the whole run:
the arguments that are forwarded to invocations plus the prepared locals. -/
structure Env where
  pipeline : String
  samples_per_chunk : Nat
  asr_chunks_to_buffer : Nat
  stop_after : Option String
  loc : Locals
deriving DecidableEq, Repr

/-- The environment `main` runs under, for given arguments. -/
def envOf (args : Args) : Env where
  pipeline := args.pipeline
  samples_per_chunk := args.samples_per_chunk
  asr_chunks_to_buffer := args.asr_chunks_to_buffer
  stop_after := args.stop_after
  loc := setupLocals args

/-- Lines 131-141: the arguments of a `request` invocation (wake + ASR only).
Every turn passes the same args-derived pre-supplied results and
`stop_after="asr"`. -/
def reqInvArgs (env : Env) : InvArgs where
  pipeline := env.pipeline
  samples_per_chunk := env.samples_per_chunk
  asr_chunks_to_buffer := env.asr_chunks_to_buffer
  wake_detection := env.loc.wake_detection
  asr_wav_in := env.loc.asr_wav_in
  asr_transcript := env.loc.asr_transcript
  intent_result := none
  handle_result := none
  tts_wav_in := none
  stop_after := some "asr"

/-- Lines 176-188: the arguments of a `response` invocation, seeded with the
detection and transcript of the completed request result `r`. -/
def respInvArgs (env : Env) (r : PipelineResult) : InvArgs where
  pipeline := env.pipeline
  samples_per_chunk := env.samples_per_chunk
  asr_chunks_to_buffer := env.asr_chunks_to_buffer
  wake_detection := r.wake_detection
  asr_wav_in := none
  asr_transcript := r.asr_transcript
  intent_result := env.loc.intent_result
  handle_result := env.loc.handle_result
  tts_wav_in := env.loc.tts_wav_in
  stop_after := env.stop_after

/-- Lines 109-121: the arguments of a single-shot invocation (all
pre-supplied results, `stop_after` as requested). -/
def singleInvArgs (env : Env) : InvArgs where
  pipeline := env.pipeline
  samples_per_chunk := env.samples_per_chunk
  asr_chunks_to_buffer := env.asr_chunks_to_buffer
  wake_detection := env.loc.wake_detection
  asr_wav_in := env.loc.asr_wav_in
  asr_transcript := env.loc.asr_transcript
  intent_result := env.loc.intent_result
  handle_result := env.loc.handle_result
  tts_wav_in := env.loc.tts_wav_in
  stop_after := env.stop_after

/-- The role of an invocation: the direct single-shot call of lines 109-121,
the `request_task` of lines 131-142, or the `response_task` of
lines 176-189. -/
inductive TaskKind
  | single
  | request
  | response
deriving DecidableEq, Repr

/-- How an in-flight invocation terminates, chosen by the schedule:
successfully with a result record, by raising an exception (identified by a
number), or — only after `cancel()` was requested for it — as cancelled
(`Task.cancelled()` is true). -/
inductive TaskFate
  | ok (r : PipelineResult)
  | err (e : Nat)
  | cancelled
deriving DecidableEq, Repr

/-- A live `response_task` handle: its id and whether `cancel()` has been
requested on it. -/
structure RespH where
  id : Nat
  cancelRequested : Bool
deriving DecidableEq, Repr

/-- Observable events of a run, in order: an invocation is created
(`run_pipeline` called / task created), a cancellation is requested
(`response_task.cancel()`), an awaited invocation terminates, a result record
is serialized to the output stream (`json.dump` + newline). -/
inductive Ev
  | start (id : Nat) (kind : TaskKind) (args : InvArgs)
  | cancelReq (id : Nat)
  | finish (id : Nat) (fate : TaskFate)
  | emit (r : PipelineResult)
deriving DecidableEq, Repr

/-- An exception propagating out of `main`: a task exception re-raised by
`Task.result()` (lines 153 and 169) or the direct await (line 109), or the
`UnboundLocalError` that line 154 would raise if `pipeline_result` had never
been assigned. -/
inductive Exc
  | taskError (id : Nat) (e : Nat)
  | unbound
deriving DecidableEq, Repr

/-- How a run of `main` ends: still running (the schedule ended while the
loop was blocked at an await), stuck (the schedule made an impossible
decision, e.g. completing nothing, or cancelling a task whose cancellation
was never requested), an exception propagated out of `main`, or a
`KeyboardInterrupt` was delivered at an await point. -/
inductive Termination
  | running
  | stuck
  | raised (e : Exc)
  | interrupted
deriving DecidableEq, Repr

/-- A run: the ordered event trace and how it ended. -/
structure Run where
  events : List Ev
  term : Termination
deriving DecidableEq, Repr

/-- One schedule decision, consumed at each await point: `waits rf pf`
resolves the pending `asyncio.wait` (line 149) or the direct await
(line 109) by giving the fate of the request (`rf`) and/or response (`pf`)
invocation that completes there (`none` = stays pending); `interrupt`
delivers a `KeyboardInterrupt` at that await point. -/
inductive SchedStep
  | waits (rf : Option TaskFate) (pf : Option TaskFate)
  | interrupt
deriving DecidableEq, Repr

/-- The state of the continuous loop (lines 129-189) between two await
points: the id counter for fresh tasks, the current turn's `request_task`
(its id, and its fate once it completed — `none` while pending), the live
`response_task` if any, and the current value of the Python local variable
`pipeline_result` (`none` = never assigned). -/
structure MState where
  nextId : Nat
  reqId : Nat
  reqDone : Option TaskFate
  resp : Option RespH
  pres : Option PipelineResult
deriving DecidableEq, Repr

/-- The outcome of processing one schedule step: the loop halts (exception,
interrupt or stuck schedule) after the listed events, or continues at the
next await point with a new state. -/
inductive StepRes
  | halt (evs : List Ev) (t : Termination)
  | next (evs : List Ev) (st : MState)
deriving DecidableEq, Repr

/-- Lines 169-189 plus the restart of the outer loop (lines 131-142): once
the inner `asyncio.wait` loop has drained (`aws` empty), take the request's
result — re-raising its exception if it failed — then either emit its record
and go straight to the next request (no transcript, lines 171-174), or start
a `response` invocation seeded with its detection and transcript
(lines 176-189) and then the next request.  A `cancelled` request fate is
impossible (the request task is never cancelled); it is mapped to a stuck
run. -/
def postInner (env : Env) (nextId reqId : Nat) (fate : TaskFate) : StepRes :=
  match fate with
  | .err e => .halt [] (.raised (.taskError reqId e))
  | .cancelled => .halt [] .stuck
  | .ok r =>
    match r.asr_transcript with
    | none =>
      .next [.emit r, .start nextId .request (reqInvArgs env)]
        { nextId := nextId + 1, reqId := nextId, reqDone := none, resp := none,
          pres := some r }
    | some _ =>
      .next [.start nextId .response (respInvArgs env r),
             .start (nextId + 1) .request (reqInvArgs env)]
        { nextId := nextId + 2, reqId := nextId + 1, reqDone := none,
          resp := some ⟨nextId, false⟩, pres := some r }

/-- Prepend events to the result of a later stage of the same step. -/
def prependEvs (evs : List Ev) : StepRes → StepRes
  | .halt evs2 t => .halt (evs ++ evs2) t
  | .next evs2 st => .next (evs ++ evs2) st

/-- One pass of the inner `while True` of lines 148-167, i.e. one
`asyncio.wait` (line 149) resolved by the schedule step, followed by the
response-processing block (lines 151-156), the barge-in cancellation block
(lines 158-163), and — when `aws` has drained — the request processing of
lines 169-189 via `postInner`.

Faithful details: the response block runs first, so a response that
completed in the same round as the request is consumed, not cancelled; a
cancelled response skips `result()` but still executes line 154, dumping the
*stale* `pipeline_result` variable (raising `UnboundLocalError` if it was
never assigned); a response that terminated with an exception has
`cancelled()` false, so line 153 re-raises it regardless of whether its
cancellation had been requested. -/
def processStep (env : Env) (st : MState) : SchedStep → StepRes
  | .interrupt => .halt [] .interrupted
  | .waits rf pf =>
    -- the request completion applies only while the request is pending
    let reqC : Option TaskFate := if st.reqDone = none then rf else none
    -- the response completion applies only while a response task is live
    let respC : Option (RespH × TaskFate) :=
      match st.resp, pf with
      | some h, some g => some (h, g)
      | _, _ => none
    -- `asyncio.wait(return_when=FIRST_COMPLETED)` returns a nonempty done
    -- set, a task only ends cancelled after `cancel()` was requested, and
    -- the request task is never cancelled
    if reqC = none ∧ respC = none then .halt [] .stuck
    else if reqC = some .cancelled then .halt [] .stuck
    else if (match respC with
             | some (h, .cancelled) => !h.cancelRequested
             | _ => false : Bool) then
      .halt [] .stuck
    else
      -- lines 151-156: the response-processing block
      let respOut : Option (List Ev × Option PipelineResult) ⊕ (List Ev × Termination) :=
        match respC with
        | none => .inl none
        | some (h, .ok r) => .inl (some ([.finish h.id (.ok r), .emit r], some r))
        | some (h, .cancelled) =>
          match st.pres with
          | none => .inr ([.finish h.id .cancelled], .raised .unbound)
          | some rp => .inl (some ([.finish h.id .cancelled, .emit rp], st.pres))
        | some (h, .err e) => .inr ([.finish h.id (.err e)], .raised (.taskError h.id e))
      match respOut with
      | .inr (evs, t) => .halt evs t
      | .inl respRes =>
        let evs1 : List Ev := match respRes with | none => [] | some (evs, _) => evs
        let pres1 : Option PipelineResult :=
          match respRes with | none => st.pres | some (_, p) => p
        -- the response slot is empty once its completion was processed
        let resp1 : Option RespH := match respRes with | none => st.resp | some _ => none
        -- lines 158-163: request completed while the response is still pending
        match reqC with
        | none =>
          prependEvs evs1 (
            match st.reqDone, resp1 with
            | some f, none => postInner env st.nextId st.reqId f
            | _, _ => .next [] { st with resp := resp1, pres := pres1 })
        | some f =>
          match resp1 with
          | some h =>
            .next (evs1 ++ [.finish st.reqId f, .cancelReq h.id])
              { st with reqDone := some f, resp := some ⟨h.id, true⟩, pres := pres1 }
          | none =>
            prependEvs (evs1 ++ [.finish st.reqId f])
              (postInner env st.nextId st.reqId f)

/-- The continuous loop of lines 129-189, driven by the schedule: process one
await point per schedule step until the schedule ends (the loop is still
running) or the step halts the loop. -/
def loopGo (env : Env) : MState → List SchedStep → Run
  | _, [] => ⟨[], .running⟩
  | st, s :: rest =>
    match processStep env st s with
    | .halt evs t => ⟨evs, t⟩
    | .next evs st2 =>
      let r := loopGo env st2 rest
      ⟨evs ++ r.events, r.term⟩

/-- The outcome of the single-shot `while True` loop of lines 107-127:
either it halts (exception, interrupt, schedule over, stuck), or — only when
`--loop` was not given — it breaks out after one emitted record, carrying the
result, the id counter and the unconsumed schedule into the code that
follows. -/
inductive SingleOut
  | halted (evs : List Ev) (t : Termination)
  | broke (evs : List Ev) (nextId : Nat) (r : PipelineResult) (rest : List SchedStep)
deriving DecidableEq, Repr

/-- The single-shot loop of lines 107-127: await one full invocation
(line 109), emit its record (lines 123-124), and repeat forever when
`--loop` was given, else break after the first. -/
def singleGo (env : Env) (loopFlag : Bool) : Nat → List SchedStep → SingleOut
  | _, [] => .halted [] .running
  | _, .interrupt :: _ => .halted [] .interrupted
  | n, .waits rf _ :: rest =>
    match rf with
    | none => .halted [] .stuck
    | some .cancelled => .halted [] .stuck
    | some (.err e) =>
      .halted [.start n .single (singleInvArgs env), .finish n (.err e)]
        (.raised (.taskError n e))
    | some (.ok r) =>
      let evs : List Ev := [.start n .single (singleInvArgs env), .finish n (.ok r), .emit r]
      if loopFlag then
        match singleGo env loopFlag (n + 1) rest with
        | .halted evs2 t => .halted (evs ++ evs2) t
        | .broke evs2 m r2 rest2 => .broke (evs ++ evs2) m r2 rest2
      else .broke evs (n + 1) r rest

/-- The body of `main` after argument parsing (lines 71-189).  When `--loop`
was not given, or `--stop-after` is `wake` or `asr`, the single-shot loop of
lines 107-127 runs first; if it breaks out (no `--loop`), control *falls
through* into the continuous loop of lines 129-189 — there is no return
between them in the source.  The continuous loop starts each turn's request
task before its first await. -/
def mainRun (args : Args) (sched : List SchedStep) : Run :=
  let env := envOf args
  if args.loop = false ∨ args.stop_after = some "wake" ∨ args.stop_after = some "asr" then
    match singleGo env args.loop 0 sched with
    | .halted evs t => ⟨evs, t⟩
    | .broke evs n r rest =>
      let rr := loopGo env
        { nextId := n + 1, reqId := n, reqDone := none, resp := none, pres := some r } rest
      ⟨evs ++ [.start n .request (reqInvArgs env)] ++ rr.events, rr.term⟩
  else
    let rr := loopGo env
      { nextId := 1, reqId := 0, reqDone := none, resp := none, pres := none } sched
    ⟨[.start 0 .request (reqInvArgs env)] ++ rr.events, rr.term⟩

/-- How the process ends for a given termination of `main`, per the
`__main__` guard of lines 192-196: a `KeyboardInterrupt` is caught and
suppressed (`pass`), so the process exits 0 with no error report; any other
exception is uncaught, so the interpreter reports it and exits 1; a run that
is still in progress has no exit. -/
def processExit : Termination → Option (Nat × Bool)
  | .interrupted => some (0, false)
  | .raised _ => some (1, true)
  | .running => none
  | .stuck => none

/-- The records serialized to the output stream during a run, in order. -/
def emitsOf (evs : List Ev) : List PipelineResult :=
  evs.filterMap fun e => match e with | .emit r => some r | _ => none

/-- Two-slot in-flight validator: walk a trace keeping the id of the live
request-slot invocation (`rq`: the current `request` task, or the directly
awaited single-shot invocation) and the live `response` task (`rs`).  The
walk succeeds exactly when an invocation is only ever started into an empty
slot — so at most one request-slot and at most one response invocation are
in flight at any instant, and in particular no response invocation starts
while a previous one is still pending — and every completion is of a live
invocation. -/
def checkFrom : Option Nat → Option Nat → List Ev → Bool
  | _, _, [] => true
  | rq, rs, .start id k _ :: t =>
    match k with
    | .response => match rs with
      | none => checkFrom rq (some id) t
      | some _ => false
    | _ => match rq with
      | none => checkFrom (some id) rs t
      | some _ => false
  | rq, rs, .finish id _ :: t =>
    if rs = some id then checkFrom rq none t
    else if rq = some id then checkFrom none rs t
    else false
  | rq, rs, _ :: t => checkFrom rq rs t

/-- Well-formedness of a loop state: live task ids are below the fresh-id
counter and the live response id differs from the current request id. -/
def WF (st : MState) : Prop :=
  st.reqId < st.nextId ∧ ∀ h, st.resp = some h → h.id < st.nextId ∧ h.id ≠ st.reqId

/-- The request-slot id the two-slot validator should hold for a loop
state. -/
def slotReq (st : MState) : Option Nat :=
  if st.reqDone = none then some st.reqId else none

/-- The response-slot id the two-slot validator should hold for a loop
state. -/
def slotResp (st : MState) : Option Nat := st.resp.map RespH.id

/-- The events of a single-shot loop outcome. -/
def SingleOut.evs : SingleOut → List Ev
  | .halted evs _ => evs
  | .broke evs _ _ _ => evs

/-- The termination of a single-shot outcome that halted (`running` if it
broke out instead). -/
def SingleOut.halting : SingleOut → Termination
  | .halted _ t => t
  | .broke _ _ _ _ => .running

lemma WF_fresh1 {n : Nat} {r : PipelineResult} :
    WF { nextId := n + 1, reqId := n, reqDone := none, resp := none, pres := some r } := by
  unfold WF
  exact ⟨Nat.lt_succ_self n, fun h hh => by simp at hh⟩

lemma WF_fresh2 {n : Nat} {r : PipelineResult} :
    WF { nextId := n + 2, reqId := n + 1, reqDone := none, resp := some ⟨n, false⟩,
         pres := some r } := by
  unfold WF
  refine ⟨Nat.lt_succ_self (n + 1), fun h hh => ?_⟩
  simp only [Option.some.injEq] at hh
  subst hh
  exact ⟨Nat.lt_trans (Nat.lt_succ_self n) (Nat.lt_succ_self (n + 1)),
    Nat.ne_of_lt (Nat.lt_succ_self n)⟩

lemma WF_none {n i : Nat} {d : Option TaskFate} {p : Option PipelineResult} (h : i < n) :
    WF { nextId := n, reqId := i, reqDone := d, resp := none, pres := p } := by
  unfold WF
  exact ⟨h, fun h hh => by simp at hh⟩

lemma WF_some {n i hid : Nat} {d : Option TaskFate} {p : Option PipelineResult} {b : Bool}
    (h : i < n) (h2 : hid < n) (h3 : ¬hid = i) :
    WF { nextId := n, reqId := i, reqDone := d, resp := some ⟨hid, b⟩, pres := p } := by
  unfold WF
  refine ⟨h, fun hh hhh => ?_⟩
  simp only [Option.some.injEq] at hhh
  subst hhh
  exact ⟨h2, h3⟩

-- The two-slot validator accepts every trace the continuous loop produces
-- from a well-formed state.
set_option maxHeartbeats 2000000 in
lemma checkFrom_loopGo (env : Env) (sched : List SchedStep) :
    ∀ st : MState, WF st →
      checkFrom (slotReq st) (slotResp st) (loopGo env st sched).events = true := by
  induction sched with
  | nil => intro st _; simp [loopGo, checkFrom]
  | cons s rest ih =>
    intro st hwf
    obtain ⟨n, i, d, ro, p⟩ := st
    obtain ⟨hin, hro⟩ := hwf
    cases s with
    | interrupt => simp [loopGo, processStep, checkFrom]
    | waits rf pf =>
      rcases d with _ | f <;>
        rcases ro with _ | ⟨hid, b⟩ <;>
        rcases rf with _ | rff <;>
        rcases pf with _ | pff
      all_goals (try rcases rff with ⟨rr⟩ | ⟨re⟩ | _)
      all_goals (try rcases pff with ⟨sr⟩ | ⟨se⟩ | _)
      all_goals (try rcases b)
      all_goals (try rcases p with _ | rp)
      all_goals (try rcases f with ⟨fr⟩ | ⟨fe⟩ | _)
      all_goals (try rcases htr : rr.asr_transcript with _ | tr)
      all_goals (try rcases hftr : fr.asr_transcript with _ | ftr)
      all_goals
        simp_all [loopGo, processStep, checkFrom, slotReq, slotResp, prependEvs, postInner]
      all_goals (first
        | rfl
        | exact ih _ WF_fresh1
        | exact ih _ WF_fresh2
        | exact ih ⟨_, _, none, none, _⟩ (WF_none hin)
        | exact ih ⟨_, _, some _, none, _⟩ (WF_none hin)
        | exact ih ⟨_, _, none, some ⟨_, _⟩, _⟩ (WF_some hin hro.1 hro.2)
        | exact ih ⟨_, _, some _, some ⟨_, _⟩, _⟩ (WF_some hin hro.1 hro.2))

/-- The two-slot validator accepts the single-shot phase's events followed by
any accepted continuation. -/
lemma checkFrom_singleGo (env : Env) (L : Bool) :
    ∀ (sched : List SchedStep) (m : Nat) (tail : List Ev),
      checkFrom none none tail = true →
      checkFrom none none ((singleGo env L m sched).evs ++ tail) = true := by
  intro sched
  induction sched with
  | nil => intro m tail ht; simpa [singleGo, SingleOut.evs] using ht
  | cons s rest ih =>
    intro m tail ht
    cases s with
    | interrupt => simpa [singleGo, SingleOut.evs] using ht
    | waits rf pf =>
      rcases rf with _ | rff
      · simpa [singleGo, SingleOut.evs] using ht
      rcases rff with ⟨r⟩ | ⟨e⟩ | _
      · by_cases hL : L = true
        · subst hL
          rcases hrec : singleGo env true (m + 1) rest with ⟨evs2, t⟩ | ⟨evs2, m2, r2, rest2⟩ <;>
            · have := ih (m + 1) tail ht
              rw [hrec] at this
              simp only [SingleOut.evs] at this
              simpa [singleGo, hrec, SingleOut.evs, checkFrom] using this
        · replace hL : L = false := by cases L <;> simp_all
          subst hL
          simpa [singleGo, SingleOut.evs, checkFrom] using ht
      · simpa [singleGo, SingleOut.evs, checkFrom] using ht
      · simpa [singleGo, SingleOut.evs] using ht

/-- C4: in every reachable state of the scheduler, at most one request-slot
invocation and at most one response invocation are in flight at the same
instant, and a new response invocation is never started while a previous
response invocation is still pending: the two-slot trace validator
`checkFrom` (which fails whenever an invocation starts into an occupied
slot) accepts every trace `main` can produce, for all arguments and all
schedules. -/
theorem C4_two_slot_invariant (args : Args) (sched : List SchedStep) :
    checkFrom none none (mainRun args sched).events = true := by
  unfold mainRun
  dsimp only
  split
  · rcases hgo : singleGo (envOf args) args.loop 0 sched with ⟨evs, t⟩ | ⟨evs, n, r, rest⟩
    · have hall := checkFrom_singleGo (envOf args) args.loop sched 0 [] (by simp [checkFrom])
      rw [hgo] at hall
      simpa [SingleOut.evs] using hall
    · have hl := checkFrom_loopGo (envOf args) rest
        ⟨n + 1, n, none, none, some r⟩ WF_fresh1
      have htail : checkFrom none none
          (Ev.start n .request (reqInvArgs (envOf args)) ::
            (loopGo (envOf args) ⟨n + 1, n, none, none, some r⟩ rest).events) = true := by
        simpa [checkFrom, slotReq, slotResp] using hl
      have hall := checkFrom_singleGo (envOf args) args.loop sched 0 _ htail
      rw [hgo] at hall
      simpa [SingleOut.evs, List.append_assoc] using hall
  · have hl := checkFrom_loopGo (envOf args) sched
      ⟨1, 0, none, none, none⟩ (WF_none (Nat.lt_succ_self 0))
    simpa [checkFrom, slotReq, slotResp] using hl

/-- Shape of every start event a run can produce: request invocations always
carry exactly the args-derived arguments of lines 131-141, single-shot
invocations exactly those of lines 109-121, and response invocations always
carry a transcript in their arguments (they are only ever seeded from a
request result that has one, lines 171-189). -/
def shapeOk (env : Env) (evs : List Ev) : Bool :=
  evs.all fun e => match e with
    | .start _ .request a => a == reqInvArgs env
    | .start _ .single a => a == singleInvArgs env
    | .start _ .response a => a.asr_transcript.isSome
    | _ => true

set_option maxHeartbeats 2000000 in
lemma shapeOk_loopGo (env : Env) (sched : List SchedStep) :
    ∀ st : MState, shapeOk env (loopGo env st sched).events = true := by
  induction sched with
  | nil => intro st; simp [loopGo, shapeOk]
  | cons s rest ih =>
    intro st
    obtain ⟨n, i, d, ro, p⟩ := st
    cases s with
    | interrupt => simp [loopGo, processStep, shapeOk]
    | waits rf pf =>
      rcases d with _ | f <;>
        rcases ro with _ | ⟨hid, b⟩ <;>
        rcases rf with _ | rff <;>
        rcases pf with _ | pff
      all_goals (try rcases rff with ⟨rr⟩ | ⟨re⟩ | _)
      all_goals (try rcases pff with ⟨sr⟩ | ⟨se⟩ | _)
      all_goals (try rcases b)
      all_goals (try rcases p with _ | rp)
      all_goals (try rcases f with ⟨fr⟩ | ⟨fe⟩ | _)
      all_goals (try rcases htr : rr.asr_transcript with _ | tr)
      all_goals (try rcases hftr : fr.asr_transcript with _ | ftr)
      all_goals
        simp_all [loopGo, processStep, shapeOk, prependEvs, postInner, respInvArgs]
      all_goals (first
        | rfl
        | exact ih _)

lemma shapeOk_singleGo (env : Env) (L : Bool) :
    ∀ (sched : List SchedStep) (m : Nat) (tail : List Ev),
      shapeOk env tail = true →
      shapeOk env ((singleGo env L m sched).evs ++ tail) = true := by
  intro sched
  induction sched with
  | nil => intro m tail ht; simpa [singleGo, SingleOut.evs] using ht
  | cons s rest ih =>
    intro m tail ht
    cases s with
    | interrupt => simpa [singleGo, SingleOut.evs] using ht
    | waits rf pf =>
      rcases rf with _ | rff
      · simpa [singleGo, SingleOut.evs] using ht
      rcases rff with ⟨r⟩ | ⟨e⟩ | _
      · by_cases hL : L = true
        · subst hL
          rcases hrec : singleGo env true (m + 1) rest with ⟨evs2, t⟩ | ⟨evs2, m2, r2, rest2⟩ <;>
            · have := ih (m + 1) tail ht
              rw [hrec] at this
              simp only [SingleOut.evs] at this
              simpa [singleGo, hrec, SingleOut.evs, shapeOk] using this
        · replace hL : L = false := by cases L <;> simp_all
          subst hL
          simpa [singleGo, SingleOut.evs, shapeOk] using ht
      · simpa [singleGo, SingleOut.evs, shapeOk] using ht
      · simpa [singleGo, SingleOut.evs] using ht

/-- Every start event `main` produces has the invariant shape. -/
lemma shapeOk_mainRun (args : Args) (sched : List SchedStep) :
    shapeOk (envOf args) (mainRun args sched).events = true := by
  unfold mainRun
  dsimp only
  split
  · rcases hgo : singleGo (envOf args) args.loop 0 sched with ⟨evs, t⟩ | ⟨evs, n, r, rest⟩
    · have hall := shapeOk_singleGo (envOf args) args.loop sched 0 [] (by simp [shapeOk])
      rw [hgo] at hall
      simpa [SingleOut.evs] using hall
    · have hl := shapeOk_loopGo (envOf args) rest ⟨n + 1, n, none, none, some r⟩
      have htail : shapeOk (envOf args)
          (Ev.start n .request (reqInvArgs (envOf args)) ::
            (loopGo (envOf args) ⟨n + 1, n, none, none, some r⟩ rest).events) = true := by
        simpa [shapeOk] using hl
      have hall := shapeOk_singleGo (envOf args) args.loop sched 0 _ htail
      rw [hgo] at hall
      simpa [SingleOut.evs, List.append_assoc] using hall
  · have hl := shapeOk_loopGo (envOf args) sched ⟨1, 0, none, none, none⟩
    simpa [shapeOk] using hl

/-- Run events contain no cancellation request. -/
def noCancelIn (evs : List Ev) : Bool :=
  evs.all fun e => match e with | .cancelReq _ => false | _ => true

/-- No cancellation has been requested on the live response task. -/
def respFree (st : MState) : Bool :=
  match st.resp with | none => true | some h => !h.cancelRequested

/-- Record predictor: walking the trace with the live request-slot invocation
(id and kind) and the live response task id, predict from each completion
event alone which record it must contribute to the output stream: a response
completing successfully contributes its result; a single-shot invocation
completing successfully contributes its result; a request completing
successfully contributes its result exactly when it carries no transcript;
failed completions contribute nothing. -/
def expectedEmits : Option (Nat × TaskKind) → Option Nat → List Ev → List PipelineResult
  | _, _, [] => []
  | rq, rs, .start id k _ :: t =>
    match k with
    | .response => expectedEmits rq (some id) t
    | _ => expectedEmits (some (id, k)) rs t
  | rq, rs, .finish id f :: t =>
    if rs = some id then
      match f with
      | .ok r => r :: expectedEmits rq none t
      | _ => expectedEmits rq none t
    else
      match rq with
      | some jk =>
        if jk.1 = id then
          match f, jk.2 with
          | .ok r, .single => r :: expectedEmits none rs t
          | .ok r, .request =>
            if r.asr_transcript = none then r :: expectedEmits none rs t
            else expectedEmits none rs t
          | _, _ => expectedEmits none rs t
        else expectedEmits rq rs t
      | none => expectedEmits rq rs t
  | rq, rs, _ :: t => expectedEmits rq rs t

set_option maxHeartbeats 2000000 in
lemma emits_expected_loopGo (env : Env) (sched : List SchedStep) :
    ∀ (n i : Nat) (ro : Option RespH) (p : Option PipelineResult),
      respFree ⟨n, i, none, ro, p⟩ = true →
      noCancelIn (loopGo env ⟨n, i, none, ro, p⟩ sched).events = true →
      emitsOf (loopGo env ⟨n, i, none, ro, p⟩ sched).events
        = expectedEmits (some (i, .request)) (slotResp ⟨n, i, none, ro, p⟩)
            (loopGo env ⟨n, i, none, ro, p⟩ sched).events := by
  induction sched with
  | nil => intro n i ro p _ _; simp [loopGo, emitsOf, expectedEmits]
  | cons s rest ih =>
    intro n i ro p hfree hnc
    cases s with
    | interrupt => simp [loopGo, processStep, emitsOf, expectedEmits]
    | waits rf pf =>
      rcases ro with _ | ⟨hid, b⟩ <;>
        rcases rf with _ | rff <;>
        rcases pf with _ | pff
      all_goals (try rcases rff with ⟨rr⟩ | ⟨re⟩ | _)
      all_goals (try rcases pff with ⟨sr⟩ | ⟨se⟩ | _)
      all_goals (try rcases b)
      all_goals (try rcases htr : rr.asr_transcript with _ | tr)
      all_goals
        simp_all [loopGo, processStep, emitsOf, expectedEmits, respFree, noCancelIn,
          slotResp, prependEvs, postInner]

lemma emits_expected_singleGo (env : Env) (L : Bool) :
    ∀ (sched : List SchedStep) (m : Nat) (tail : List Ev),
      emitsOf tail = expectedEmits none none tail →
      emitsOf ((singleGo env L m sched).evs ++ tail)
        = expectedEmits none none ((singleGo env L m sched).evs ++ tail) := by
  intro sched
  induction sched with
  | nil => intro m tail ht; simpa [singleGo, SingleOut.evs] using ht
  | cons s rest ih =>
    intro m tail ht
    cases s with
    | interrupt => simpa [singleGo, SingleOut.evs] using ht
    | waits rf pf =>
      rcases rf with _ | rff
      · simpa [singleGo, SingleOut.evs] using ht
      rcases rff with ⟨r⟩ | ⟨e⟩ | _
      · by_cases hL : L = true
        · subst hL
          rcases hrec : singleGo env true (m + 1) rest with ⟨evs2, t⟩ | ⟨evs2, m2, r2, rest2⟩ <;>
            · have := ih (m + 1) tail ht
              rw [hrec] at this
              simp only [SingleOut.evs] at this
              simpa [singleGo, hrec, SingleOut.evs, emitsOf, expectedEmits] using this
        · replace hL : L = false := by cases L <;> simp_all
          subst hL
          simpa [singleGo, SingleOut.evs, emitsOf, expectedEmits] using ht
      · simpa [singleGo, SingleOut.evs, emitsOf, expectedEmits] using ht
      · simpa [singleGo, SingleOut.evs] using ht

/-- C1 (amended): in every cancellation-free run, each completed invocation's
record is emitted exactly once, in completion order — except that a request
invocation whose result carries a transcript emits no record of its own (its
outputs seed the response invocation instead): the output stream equals the
record sequence predicted from the completion events alone by
`expectedEmits`. -/
theorem C1_amended_records_per_completion (args : Args) (sched : List SchedStep)
    (h : noCancelIn (mainRun args sched).events = true) :
    emitsOf (mainRun args sched).events
      = expectedEmits none none (mainRun args sched).events := by
  unfold mainRun at h ⊢
  dsimp only at h ⊢
  by_cases hc : args.loop = false ∨ args.stop_after = some "wake" ∨ args.stop_after = some "asr"
  · rw [if_pos hc] at h ⊢
    rcases hgo : singleGo (envOf args) args.loop 0 sched with ⟨evs, t⟩ | ⟨evs, n, r, rest⟩ <;>
      rw [hgo] at h <;> dsimp only at h ⊢
    · have hall := emits_expected_singleGo (envOf args) args.loop sched 0 []
        (by simp [emitsOf, expectedEmits])
      rw [hgo] at hall
      simpa [SingleOut.evs] using hall
    · have hnc2 : noCancelIn
          (loopGo (envOf args) ⟨n + 1, n, none, none, some r⟩ rest).events = true := by
        simp only [noCancelIn, List.all_append, List.all_cons, Bool.and_eq_true] at h
        exact h.2
      have hl := emits_expected_loopGo (envOf args) rest (n + 1) n none (some r) rfl hnc2
      have htail : emitsOf (Ev.start n .request (reqInvArgs (envOf args)) ::
            (loopGo (envOf args) ⟨n + 1, n, none, none, some r⟩ rest).events)
          = expectedEmits none none (Ev.start n .request (reqInvArgs (envOf args)) ::
            (loopGo (envOf args) ⟨n + 1, n, none, none, some r⟩ rest).events) := by
        simpa [emitsOf, expectedEmits, slotResp] using hl
      have hall := emits_expected_singleGo (envOf args) args.loop sched 0 _ htail
      rw [hgo] at hall
      simpa [SingleOut.evs, List.append_assoc] using hall
  · rw [if_neg hc] at h ⊢
    have hnc2 : noCancelIn
        (loopGo (envOf args) ⟨1, 0, none, none, none⟩ sched).events = true := by
      simp only [noCancelIn, List.all_append, List.all_cons, List.all_nil,
        Bool.and_eq_true] at h
      exact h.2
    have hl := emits_expected_loopGo (envOf args) sched 1 0 none none rfl hnc2
    simpa [emitsOf, expectedEmits, slotResp] using hl


/-- No event in the list starts an invocation. -/
def noStarts (evs : List Ev) : Bool :=
  evs.all fun e => match e with | .start _ _ _ => false | _ => true

/-- After any completion that raised an exception, no further invocation is
ever started. -/
def noStartAfterErr : List Ev → Bool
  | [] => true
  | .finish _ (.err _) :: t => noStarts t
  | _ :: t => noStartAfterErr t

/-- The `pipeline_result` variable is assigned whenever a response task is
live (so the stale dump of line 154 cannot raise `UnboundLocalError`). -/
def presOk (st : MState) : Bool :=
  match st.resp, st.pres with
  | some _, none => false
  | _, _ => true

set_option maxHeartbeats 1000000 in
lemma noStarts_loopGo_err (env : Env) (sched : List SchedStep) :
    ∀ (n i : Nat) (e : Nat) (ro : Option RespH) (p : Option PipelineResult),
      noStarts (loopGo env ⟨n, i, some (.err e), ro, p⟩ sched).events = true := by
  induction sched with
  | nil => intro n i e ro p; simp [loopGo, noStarts]
  | cons s rest ih =>
    intro n i e ro p
    cases s with
    | interrupt => simp [loopGo, processStep, noStarts]
    | waits rf pf =>
      rcases ro with _ | ⟨hid, b⟩ <;>
        rcases pf with _ | pff <;>
        rcases rf with _ | rff
      all_goals (try rcases pff with ⟨sr⟩ | ⟨se⟩ | _)
      all_goals (try rcases b)
      all_goals (try rcases p with _ | rp)
      all_goals
        simp_all [loopGo, processStep, noStarts, prependEvs, postInner]

set_option maxHeartbeats 2000000 in
lemma noStartAfterErr_loopGo (env : Env) (sched : List SchedStep) :
    ∀ st : MState, noStartAfterErr (loopGo env st sched).events = true := by
  induction sched with
  | nil => intro st; simp [loopGo, noStartAfterErr]
  | cons s rest ih =>
    intro st
    obtain ⟨n, i, d, ro, p⟩ := st
    cases s with
    | interrupt => simp [loopGo, processStep, noStartAfterErr]
    | waits rf pf =>
      rcases d with _ | f <;>
        rcases ro with _ | ⟨hid, b⟩ <;>
        rcases rf with _ | rff <;>
        rcases pf with _ | pff
      all_goals (try rcases rff with ⟨rr⟩ | ⟨re⟩ | _)
      all_goals (try rcases pff with ⟨sr⟩ | ⟨se⟩ | _)
      all_goals (try rcases b)
      all_goals (try rcases p with _ | rp)
      all_goals (try rcases f with ⟨fr⟩ | ⟨fe⟩ | _)
      all_goals (try rcases htr : rr.asr_transcript with _ | tr)
      all_goals (try rcases hftr : fr.asr_transcript with _ | ftr)
      all_goals
        simp_all [loopGo, processStep, noStartAfterErr, noStarts, prependEvs, postInner]
      all_goals (first
        | rfl
        | exact ih _
        | exact noStarts_loopGo_err env rest _ _ _ _ _
        | simpa [noStarts] using noStarts_loopGo_err env rest _ _ _ _ _)

set_option maxHeartbeats 1000000 in
lemma unbound_free_loopGo (env : Env) (sched : List SchedStep) :
    ∀ st : MState, presOk st = true →
      (loopGo env st sched).term ≠ .raised .unbound := by
  induction sched with
  | nil => intro st _; simp [loopGo]
  | cons s rest ih =>
    intro st hp
    obtain ⟨n, i, d, ro, p⟩ := st
    cases s with
    | interrupt => simp [loopGo, processStep]
    | waits rf pf =>
      rcases d with _ | f <;>
        rcases ro with _ | ⟨hid, b⟩ <;>
        rcases rf with _ | rff <;>
        rcases pf with _ | pff
      all_goals (try rcases rff with ⟨rr⟩ | ⟨re⟩ | _)
      all_goals (try rcases pff with ⟨sr⟩ | ⟨se⟩ | _)
      all_goals (try rcases b)
      all_goals (try rcases p with _ | rp)
      all_goals (try rcases f with ⟨fr⟩ | ⟨fe⟩ | _)
      all_goals (try rcases htr : rr.asr_transcript with _ | tr)
      all_goals (try rcases hftr : fr.asr_transcript with _ | ftr)
      all_goals
        simp_all [loopGo, processStep, presOk, prependEvs, postInner]

set_option maxHeartbeats 1000000 in
lemma processStep_no_halt_running (env : Env) (st : MState) (s : SchedStep)
    (evs : List Ev) : processStep env st s ≠ .halt evs .running := by
  obtain ⟨n, i, d, ro, p⟩ := st
  cases s with
  | interrupt => simp [processStep]
  | waits rf pf =>
    rcases d with _ | f <;>
      rcases ro with _ | ⟨hid, b⟩ <;>
      rcases rf with _ | rff <;>
      rcases pf with _ | pff
    all_goals (try rcases rff with ⟨rr⟩ | ⟨re⟩ | _)
    all_goals (try rcases pff with ⟨sr⟩ | ⟨se⟩ | _)
    all_goals (try rcases b)
    all_goals (try rcases p with _ | rp)
    all_goals (try rcases f with ⟨fr⟩ | ⟨fe⟩ | _)
    all_goals (try rcases htr : rr.asr_transcript with _ | tr)
    all_goals (try rcases hftr : fr.asr_transcript with _ | ftr)
    all_goals
      simp_all [processStep, prependEvs, postInner]

lemma loopGo_append_interrupt (env : Env) (sched : List SchedStep) :
    ∀ st : MState, (loopGo env st sched).term = .running →
      loopGo env st (sched ++ [.interrupt])
        = ⟨(loopGo env st sched).events, .interrupted⟩ := by
  induction sched with
  | nil =>
    intro st _
    simp [loopGo, processStep]
  | cons s rest ih =>
    intro st ht
    rcases hps : processStep env st s with ⟨evs, t⟩ | ⟨evs, st2⟩
    · simp only [loopGo, hps] at ht
      subst ht
      exact absurd hps (processStep_no_halt_running env st s evs)
    · simp only [loopGo, hps] at ht
      rw [List.cons_append]
      simp only [loopGo, hps]
      rw [ih st2 ht]

/-- One unfolding of the single-shot loop in looping mode at a successful
completion. -/
lemma singleGo_cons_ok_true (env : Env) (m : Nat) (r : PipelineResult)
    (pf : Option TaskFate) (rest : List SchedStep) :
    singleGo env true m (.waits (some (.ok r)) pf :: rest)
      = match singleGo env true (m + 1) rest with
        | .halted evs2 t =>
          .halted ([.start m .single (singleInvArgs env), .finish m (.ok r), .emit r]
            ++ evs2) t
        | .broke evs2 m2 r2 rest2 =>
          .broke ([.start m .single (singleInvArgs env), .finish m (.ok r), .emit r]
            ++ evs2) m2 r2 rest2 := by
  rcases hrec : singleGo env true (m + 1) rest with ⟨evs2, t⟩ | ⟨evs2, m2, r2, rest2⟩ <;>
    simp [singleGo, hrec]

lemma singleGo_append_run (env : Env) (L : Bool) :
    ∀ (sched : List SchedStep) (m : Nat) (evs : List Ev),
      singleGo env L m sched = .halted evs .running →
      singleGo env L m (sched ++ [.interrupt]) = .halted evs .interrupted := by
  intro sched
  induction sched with
  | nil =>
    intro m evs h
    simp only [singleGo, SingleOut.halted.injEq] at h
    simp [singleGo, h.1]
  | cons s rest ih =>
    intro m evs h
    cases s with
    | interrupt => simp [singleGo] at h
    | waits rf pf =>
      rcases rf with _ | rff
      · simp [singleGo] at h
      rcases rff with ⟨r⟩ | ⟨e⟩ | _
      · by_cases hL : L = true
        · subst hL
          rw [List.cons_append, singleGo_cons_ok_true]
          rw [singleGo_cons_ok_true] at h
          rcases hrec : singleGo env true (m + 1) rest with ⟨evs2, t⟩ | ⟨evs2, m2, r2, rest2⟩ <;>
            rw [hrec] at h
          · simp only [SingleOut.halted.injEq] at h
            rcases h with ⟨h1, h2⟩
            subst h2
            rw [ih (m + 1) evs2 hrec]
            simp [h1]
          · simp at h
        · replace hL : L = false := by cases L <;> simp_all
          subst hL
          simp [singleGo] at h
      · simp only [singleGo, SingleOut.halted.injEq] at h
        rcases h with ⟨h1, h2⟩
        cases h2
      · simp [singleGo] at h

lemma singleGo_append_broke (env : Env) (L : Bool) :
    ∀ (sched : List SchedStep) (m : Nat) (evs : List Ev) (n2 : Nat)
      (r : PipelineResult) (rest2 : List SchedStep),
      singleGo env L m sched = .broke evs n2 r rest2 →
      singleGo env L m (sched ++ [.interrupt]) = .broke evs n2 r (rest2 ++ [.interrupt]) := by
  intro sched
  induction sched with
  | nil => intro m evs n2 r rest2 h; simp [singleGo] at h
  | cons s rest ih =>
    intro m evs n2 r rest2 h
    cases s with
    | interrupt => simp [singleGo] at h
    | waits rf pf =>
      rcases rf with _ | rff
      · simp [singleGo] at h
      rcases rff with ⟨rv⟩ | ⟨e⟩ | _
      · by_cases hL : L = true
        · subst hL
          rw [List.cons_append, singleGo_cons_ok_true]
          rw [singleGo_cons_ok_true] at h
          rcases hrec : singleGo env true (m + 1) rest with ⟨evs2, t⟩ | ⟨evs2, m2, r2, rest2x⟩ <;>
            rw [hrec] at h
          · cases h
          · simp only [SingleOut.broke.injEq] at h
            rcases h with ⟨h1, h2, h3, h4⟩
            rw [ih (m + 1) evs2 m2 r2 rest2x hrec]
            dsimp only
            rw [h1, h2, h3, h4]
        · replace hL : L = false := by cases L <;> simp_all
          subst hL
          simp only [singleGo, Bool.false_eq_true, if_false, SingleOut.broke.injEq] at h
          rcases h with ⟨h1, h2, h3, h4⟩
          rw [List.cons_append]
          simp only [singleGo, Bool.false_eq_true, if_false]
          rw [h1, h2, h3, h4]
      · simp [singleGo] at h
      · simp [singleGo] at h

/-- C10: a `KeyboardInterrupt` delivered at an await point of a still-running
run aborts `main` with no further emitted records (the event trace is
unchanged), and the `__main__` guard of lines 192-196 catches and suppresses
it: the process exits with status 0 and reports no error. -/
theorem C10_keyboard_interrupt (args : Args) (sched : List SchedStep)
    (h : (mainRun args sched).term = .running) :
    mainRun args (sched ++ [.interrupt])
      = ⟨(mainRun args sched).events, .interrupted⟩
    ∧ processExit .interrupted = some (0, false) := by
  refine ⟨?_, rfl⟩
  unfold mainRun at h ⊢
  dsimp only at h ⊢
  by_cases hc : args.loop = false ∨ args.stop_after = some "wake" ∨ args.stop_after = some "asr"
  · simp only [if_pos hc] at h ⊢
    rcases hgo : singleGo (envOf args) args.loop 0 sched with ⟨evs, t⟩ | ⟨evs, n, r, rest⟩ <;>
      rw [hgo] at h <;> dsimp only at h ⊢
    · subst h
      rw [singleGo_append_run (envOf args) args.loop sched 0 evs hgo]
    · rw [singleGo_append_broke (envOf args) args.loop sched 0 evs n r rest hgo]
      dsimp only
      rw [loopGo_append_interrupt (envOf args) rest _ h]
  · simp only [if_neg hc] at h ⊢
    rw [loopGo_append_interrupt (envOf args) sched _ h]


/-- A result record carrying a wake detection and a transcript (payload `p`
distinguishes records). -/
def rT (p : Nat) : PipelineResult :=
  { wake_detection := some ⟨"w"⟩, asr_transcript := some ⟨"t"⟩, payload := p }

/-- A result record carrying no transcript. -/
def rN (p : Nat) : PipelineResult :=
  { wake_detection := none, asr_transcript := none, payload := p }

/-- `pipeline_run --loop` with no pre-supplied results: continuous overlap
mode. -/
def argsLoop : Args := { loop := true }

/-- The termination is the `UnboundLocalError` raise of line 154. -/
def termIsUnbound : Termination → Bool
  | .raised .unbound => true
  | _ => false

lemma singleGo_noStartAfterErr_halted (env : Env) (L : Bool) :
    ∀ (sched : List SchedStep) (m : Nat) (evs : List Ev) (t : Termination),
      singleGo env L m sched = .halted evs t → noStartAfterErr evs = true := by
  intro sched
  induction sched with
  | nil =>
    intro m evs t h
    simp only [singleGo, SingleOut.halted.injEq] at h
    simp [← h.1, noStartAfterErr]
  | cons s rest ih =>
    intro m evs t h
    cases s with
    | interrupt =>
      simp only [singleGo, SingleOut.halted.injEq] at h
      simp [← h.1, noStartAfterErr]
    | waits rf pf =>
      rcases rf with _ | rff
      · simp only [singleGo, SingleOut.halted.injEq] at h
        simp [← h.1, noStartAfterErr]
      rcases rff with ⟨r⟩ | ⟨e⟩ | _
      · by_cases hL : L = true
        · subst hL
          rw [singleGo_cons_ok_true] at h
          rcases hrec : singleGo env true (m + 1) rest with ⟨evs2, t2⟩ | ⟨evs2, m2, r2, rest2⟩ <;>
            rw [hrec] at h
          · simp only [SingleOut.halted.injEq] at h
            have := ih (m + 1) evs2 t2 hrec
            simp [← h.1, noStartAfterErr, this]
          · cases h
        · replace hL : L = false := by cases L <;> simp_all
          subst hL
          simp [singleGo] at h
      · simp only [singleGo, SingleOut.halted.injEq] at h
        simp [← h.1, noStartAfterErr, noStarts]
      · simp only [singleGo, SingleOut.halted.injEq] at h
        simp [← h.1, noStartAfterErr]

lemma singleGo_noStartAfterErr_broke (env : Env) (L : Bool) :
    ∀ (sched : List SchedStep) (m : Nat) (evs : List Ev) (n2 : Nat)
      (r : PipelineResult) (rest2 : List SchedStep) (tail : List Ev),
      singleGo env L m sched = .broke evs n2 r rest2 →
      noStartAfterErr tail = true →
      noStartAfterErr (evs ++ tail) = true := by
  intro sched
  induction sched with
  | nil => intro m evs n2 r rest2 tail h _; simp [singleGo] at h
  | cons s rest ih =>
    intro m evs n2 r rest2 tail h htail
    cases s with
    | interrupt => simp [singleGo] at h
    | waits rf pf =>
      rcases rf with _ | rff
      · simp [singleGo] at h
      rcases rff with ⟨rv⟩ | ⟨e⟩ | _
      · by_cases hL : L = true
        · subst hL
          rw [singleGo_cons_ok_true] at h
          rcases hrec : singleGo env true (m + 1) rest with ⟨evs2, t2⟩ | ⟨evs2, m2, r2, rest2x⟩ <;>
            rw [hrec] at h
          · cases h
          · simp only [SingleOut.broke.injEq] at h
            have := ih (m + 1) evs2 m2 r2 rest2x tail hrec htail
            simp [← h.1, noStartAfterErr, this]
        · replace hL : L = false := by cases L <;> simp_all
          subst hL
          simp only [singleGo, Bool.false_eq_true, if_false, SingleOut.broke.injEq] at h
          simp [← h.1, noStartAfterErr, htail]
      · simp [singleGo] at h
      · simp [singleGo] at h

lemma singleGo_halting_not_unbound (env : Env) (L : Bool) :
    ∀ (sched : List SchedStep) (m : Nat) (evs : List Ev) (t : Termination),
      singleGo env L m sched = .halted evs t → termIsUnbound t = false := by
  intro sched
  induction sched with
  | nil =>
    intro m evs t h
    simp only [singleGo, SingleOut.halted.injEq] at h
    simp [← h.2, termIsUnbound]
  | cons s rest ih =>
    intro m evs t h
    cases s with
    | interrupt =>
      simp only [singleGo, SingleOut.halted.injEq] at h
      simp [← h.2, termIsUnbound]
    | waits rf pf =>
      rcases rf with _ | rff
      · simp only [singleGo, SingleOut.halted.injEq] at h
        simp [← h.2, termIsUnbound]
      rcases rff with ⟨r⟩ | ⟨e⟩ | _
      · by_cases hL : L = true
        · subst hL
          rw [singleGo_cons_ok_true] at h
          rcases hrec : singleGo env true (m + 1) rest with ⟨evs2, t2⟩ | ⟨evs2, m2, r2, rest2⟩ <;>
            rw [hrec] at h
          · simp only [SingleOut.halted.injEq] at h
            have := ih (m + 1) evs2 t2 hrec
            simp [← h.2, this]
          · cases h
        · replace hL : L = false := by cases L <;> simp_all
          subst hL
          simp [singleGo] at h
      · simp only [singleGo, SingleOut.halted.injEq] at h
        simp [← h.2, termIsUnbound]
      · simp only [singleGo, SingleOut.halted.injEq] at h
        simp [← h.2, termIsUnbound]

lemma noStartAfterErr_mainRun (args : Args) (sched : List SchedStep) :
    noStartAfterErr (mainRun args sched).events = true := by
  unfold mainRun
  dsimp only
  split
  · rcases hgo : singleGo (envOf args) args.loop 0 sched with ⟨evs, t⟩ | ⟨evs, n, r, rest⟩ <;>
      dsimp only
    · exact singleGo_noStartAfterErr_halted (envOf args) args.loop sched 0 evs t hgo
    · rw [List.append_assoc]
      refine singleGo_noStartAfterErr_broke (envOf args) args.loop sched 0 evs n r rest _ hgo ?_
      have hl := noStartAfterErr_loopGo (envOf args) rest ⟨n + 1, n, none, none, some r⟩
      simpa [noStartAfterErr] using hl
  · have hl := noStartAfterErr_loopGo (envOf args) sched ⟨1, 0, none, none, none⟩
    simpa [noStartAfterErr] using hl

lemma unbound_free_mainRun (args : Args) (sched : List SchedStep) :
    termIsUnbound (mainRun args sched).term = false := by
  unfold mainRun
  dsimp only
  split
  · rcases hgo : singleGo (envOf args) args.loop 0 sched with ⟨evs, t⟩ | ⟨evs, n, r, rest⟩ <;>
      dsimp only
    · exact singleGo_halting_not_unbound (envOf args) args.loop sched 0 evs t hgo
    · have hl := unbound_free_loopGo (envOf args) rest ⟨n + 1, n, none, none, some r⟩ rfl
      rcases hterm : (loopGo (envOf args) ⟨n + 1, n, none, none, some r⟩ rest).term with
        _ | _ | e | _ <;> simp [termIsUnbound]
      rcases e with ⟨eid, ec⟩ | _
      · simp [termIsUnbound]
      · rw [hterm] at hl; exact absurd rfl hl
  · have hl := unbound_free_loopGo (envOf args) sched ⟨1, 0, none, none, none⟩ rfl
    rcases hterm : (loopGo (envOf args) ⟨1, 0, none, none, none⟩ sched).term with
      _ | _ | e | _ <;> simp [termIsUnbound]
    rcases e with ⟨eid, ec⟩ | _
    · simp [termIsUnbound]
    · rw [hterm] at hl; exact absurd rfl hl


/-- C5 (amended): failures propagate and terminate the loop: after any
completion that raised an exception no further invocation is ever started; a
response invocation that terminates with an exception halts the loop with
exactly that exception re-raised by line 153, whether or not its cancellation
had been requested; suppression happens only for a response that actually
terminated as cancelled, and that silent path never raises (the stale
`pipeline_result` of line 154 is always assigned, so no `UnboundLocalError`
ever escapes). -/
theorem C5_amended_failure_propagation :
    (∀ (args : Args) (sched : List SchedStep),
      noStartAfterErr (mainRun args sched).events = true)
    ∧ (∀ (env : Env) (n i hid e : Nat) (d : Option TaskFate)
        (p : Option PipelineResult) (b : Bool),
      processStep env ⟨n, i, d, some ⟨hid, b⟩, p⟩ (.waits none (some (.err e)))
        = .halt [.finish hid (.err e)] (.raised (.taskError hid e)))
    ∧ (∀ (args : Args) (sched : List SchedStep),
      termIsUnbound (mainRun args sched).term = false) := by
  refine ⟨noStartAfterErr_mainRun, ?_, unbound_free_mainRun⟩
  intro env n i hid e d p b
  rcases d with _ | f <;> rfl

/-- C5 witness: the amended statement applied to a concrete run. -/
theorem C5_amended_witness :
    noStartAfterErr (mainRun argsLoop [.waits (some (.ok (rT 21))) none]).events = true
    ∧ termIsUnbound (mainRun argsLoop [.waits (some (.ok (rT 21))) none]).term = false :=
  ⟨C5_amended_failure_propagation.1 argsLoop [.waits (some (.ok (rT 21))) none],
   C5_amended_failure_propagation.2.2 argsLoop [.waits (some (.ok (rT 21))) none]⟩

/-- C5 counterexample: a response invocation that fails *after* its
cancellation was requested does not have its failure suppressed — the
exception propagates and terminates the loop (the claim says it is
suppressed).  Request 2 completes while response 1 is pending, so response
1's cancellation is requested (`cancelReq 1`); response 1 then terminates
with exception 9, and the run ends with exactly that exception raised. -/
theorem C5_counterexample_cancel_requested_failure_propagates :
    mainRun argsLoop [.waits (some (.ok (rT 11))) none,
        .waits (some (.ok (rT 12))) none, .waits none (some (.err 9))]
      = ⟨[.start 0 .request (reqInvArgs (envOf argsLoop)),
          .finish 0 (.ok (rT 11)),
          .start 1 .response (respInvArgs (envOf argsLoop) (rT 11)),
          .start 2 .request (reqInvArgs (envOf argsLoop)),
          .finish 2 (.ok (rT 12)),
          .cancelReq 1,
          .finish 1 (.err 9)],
         .raised (.taskError 1 9)⟩ := by
  rfl

/-- C3 (amended): whenever the request invocation completes while a response
invocation is still pending, the scheduler requests cancellation of that
response (lines 158-163); the request's completion is then processed —
its result consumed, a new response started if it carries a transcript
(lines 169-189) — when the cancelled response terminates as cancelled or
completes successfully; a response that instead terminates with an exception
propagates the failure before the request's completion is consumed. -/
theorem C3_amended_barge_in_cancellation :
    (∀ (env : Env) (n i hid : Nat) (p : Option PipelineResult)
        (r : PipelineResult) (b : Bool),
      processStep env ⟨n, i, none, some ⟨hid, b⟩, p⟩ (.waits (some (.ok r)) none)
        = .next [.finish i (.ok r), .cancelReq hid]
            ⟨n, i, some (.ok r), some ⟨hid, true⟩, p⟩)
    ∧ (∀ (env : Env) (n i hid : Nat) (p : PipelineResult) (f : TaskFate),
      processStep env ⟨n, i, some f, some ⟨hid, true⟩, some p⟩ (.waits none (some .cancelled))
        = prependEvs [.finish hid .cancelled, .emit p] (postInner env n i f))
    ∧ (∀ (env : Env) (n i hid : Nat) (p : Option PipelineResult)
        (rr : PipelineResult) (f : TaskFate) (b : Bool),
      processStep env ⟨n, i, some f, some ⟨hid, b⟩, p⟩ (.waits none (some (.ok rr)))
        = prependEvs [.finish hid (.ok rr), .emit rr] (postInner env n i f)) :=
  ⟨fun _ _ _ _ _ _ _ => rfl, fun _ _ _ _ _ _ => rfl, fun _ _ _ _ _ _ _ _ => rfl⟩

/-- C3 counterexample: the request's completion is *not* processed regardless
of the cancellation's outcome (as the claim states): when the cancelled
response terminates with an exception, the failure propagates and the
completed request's result (request 2, completed with transcript) is never
consumed — no response is started from it and no record for it is ever
emitted; the run ends with response 1's exception. -/
theorem C3_counterexample_response_failure_blocks_request_processing :
    mainRun argsLoop [.waits (some (.ok (rT 1))) none,
        .waits (some (.ok (rT 2))) none, .waits none (some (.err 7))]
      = ⟨[.start 0 .request (reqInvArgs (envOf argsLoop)),
          .finish 0 (.ok (rT 1)),
          .start 1 .response (respInvArgs (envOf argsLoop) (rT 1)),
          .start 2 .request (reqInvArgs (envOf argsLoop)),
          .finish 2 (.ok (rT 2)),
          .cancelReq 1,
          .finish 1 (.err 7)],
         .raised (.taskError 1 7)⟩ := by
  rfl

/-- C6: a request invocation whose result carries no transcript never
triggers a response invocation — every response invocation ever started
carries a transcript in its arguments — and processing such a completion
emits the request's record and immediately starts the next request
invocation, with the response slot left empty. -/
theorem C6_no_transcript_no_response :
    (∀ (args : Args) (sched : List SchedStep),
      ((mainRun args sched).events.all fun e => match e with
        | .start _ .response a => a.asr_transcript.isSome
        | _ => true) = true)
    ∧ (∀ (env : Env) (n i : Nat) (w : Option Detection) (q : Nat),
      postInner env n i (.ok ⟨w, none, q⟩)
        = .next [.emit ⟨w, none, q⟩, .start n .request (reqInvArgs env)]
            ⟨n + 1, n, none, none, some ⟨w, none, q⟩⟩) := by
  refine ⟨?_, fun _ _ _ _ _ => rfl⟩
  intro args sched
  have h := shapeOk_mainRun args sched
  rw [shapeOk, List.all_eq_true] at h
  rw [List.all_eq_true]
  intro e he
  have h2 := h e he
  cases e with
  | start id k a => cases k <;> simp_all
  | cancelReq id => rfl
  | finish id f => rfl
  | emit r => rfl

/-- C8 (amended): the pre-supplied stage results (wake detection, ASR WAV
input, ASR transcript) are passed unchanged to the request invocation of
*every* turn of the continuous loop, not only the first: each started request
invocation carries exactly the args-derived arguments of lines 131-141. -/
theorem C8_amended_presupplied_passed_every_turn (args : Args) (sched : List SchedStep) :
    ((mainRun args sched).events.all fun e => match e with
      | .start _ .request a => a == reqInvArgs (envOf args)
      | _ => true) = true
    ∧ (reqInvArgs (envOf args)).wake_detection = (setupLocals args).wake_detection
    ∧ (reqInvArgs (envOf args)).asr_wav_in = (setupLocals args).asr_wav_in
    ∧ (reqInvArgs (envOf args)).asr_transcript = (setupLocals args).asr_transcript := by
  refine ⟨?_, rfl, rfl, rfl⟩
  have h := shapeOk_mainRun args sched
  rw [shapeOk, List.all_eq_true] at h
  rw [List.all_eq_true]
  intro e he
  have h2 := h e he
  cases e with
  | start id k a => cases k <;> simp_all
  | cancelReq id => rfl
  | finish id f => rfl
  | emit r => rfl

/-- C8 counterexample: with a pre-supplied transcript (`--asr-text pre`) in
continuous mode, the *second* turn's request invocation (id 1) still carries
the pre-supplied transcript — later turns do reuse the pre-supplied results
(the claim says only the very first request uses them). -/
theorem C8_counterexample_presupplied_reused_every_turn :
    mainRun { loop := true, asr_text := some "pre" } [.waits (some (.ok (rN 1))) none]
      = ⟨[.start 0 .request (reqInvArgs (envOf { loop := true, asr_text := some "pre" })),
          .finish 0 (.ok (rN 1)),
          .emit (rN 1),
          .start 1 .request (reqInvArgs (envOf { loop := true, asr_text := some "pre" }))],
         .running⟩
    ∧ (reqInvArgs (envOf { loop := true, asr_text := some "pre" })).asr_transcript
        = some ⟨"pre"⟩ := by
  exact ⟨rfl, rfl⟩


/-- C1 counterexample: a request invocation that completes successfully and
uncancelled but carries a transcript emits *no* record at its completion (the
claim says its result is emitted on completion regardless of the
transcript).  Request 0 completes with transcript-carrying result `rT 1`
(event `finish 0`), the run continues through a full response and a further
transcript-less request — yet the output stream is `[rT 3, rN 2]`: no record
for `rT 1` is ever emitted. -/
theorem C1_counterexample_transcript_request_not_emitted :
    mainRun argsLoop [.waits (some (.ok (rT 1))) none,
        .waits none (some (.ok (rT 3))), .waits (some (.ok (rN 2))) none]
      = ⟨[.start 0 .request (reqInvArgs (envOf argsLoop)),
          .finish 0 (.ok (rT 1)),
          .start 1 .response (respInvArgs (envOf argsLoop) (rT 1)),
          .start 2 .request (reqInvArgs (envOf argsLoop)),
          .finish 1 (.ok (rT 3)),
          .emit (rT 3),
          .finish 2 (.ok (rN 2)),
          .emit (rN 2),
          .start 3 .request (reqInvArgs (envOf argsLoop))],
         .running⟩
    ∧ emitsOf (mainRun argsLoop [.waits (some (.ok (rT 1))) none,
        .waits none (some (.ok (rT 3))), .waits (some (.ok (rN 2))) none]).events
      = [rT 3, rN 2] :=
  ⟨rfl, rfl⟩

/-- C1 witness: the amended statement applied to a concrete cancellation-free
run with a response completion and a transcript-less request completion. -/
theorem C1_amended_witness :
    noCancelIn (mainRun argsLoop [.waits (some (.ok (rT 41))) none,
        .waits none (some (.ok (rT 43))), .waits (some (.ok (rN 42))) none]).events = true
    ∧ emitsOf (mainRun argsLoop [.waits (some (.ok (rT 41))) none,
        .waits none (some (.ok (rT 43))), .waits (some (.ok (rN 42))) none]).events
      = expectedEmits none none (mainRun argsLoop [.waits (some (.ok (rT 41))) none,
        .waits none (some (.ok (rT 43))), .waits (some (.ok (rN 42))) none]).events :=
  ⟨rfl, C1_amended_records_per_completion argsLoop [.waits (some (.ok (rT 41))) none,
    .waits none (some (.ok (rT 43))), .waits (some (.ok (rN 42))) none] rfl⟩

/-- C2 evaluation at the failing input: a cancelled response *does* emit a
record.  Request 2 completes while response 1 is pending, response 1's
cancellation is requested and it terminates as cancelled (`finish 1
cancelled`) — and line 154, which is outside the `if not
response_task.cancelled()` guard, then dumps the stale `pipeline_result`
variable: the record `rT 1` (request 0's result, never emitted before) is
written to the output stream for the cancelled response. -/
theorem C2_eval_cancelled_response_emits_stale_record :
    mainRun argsLoop [.waits (some (.ok (rT 1))) none,
        .waits (some (.ok (rT 2))) none, .waits none (some .cancelled)]
      = ⟨[.start 0 .request (reqInvArgs (envOf argsLoop)),
          .finish 0 (.ok (rT 1)),
          .start 1 .response (respInvArgs (envOf argsLoop) (rT 1)),
          .start 2 .request (reqInvArgs (envOf argsLoop)),
          .finish 2 (.ok (rT 2)),
          .cancelReq 1,
          .finish 1 .cancelled,
          .emit (rT 1),
          .start 3 .response (respInvArgs (envOf argsLoop) (rT 2)),
          .start 4 .request (reqInvArgs (envOf argsLoop))],
         .running⟩ := by
  rfl

/-- `pipeline_run` with no `--loop` and no pre-supplied results:
single-shot mode. -/
def argsOnce : Args := {}

/-- C7 evaluation at the failing input: without `--loop` the code emits the
single invocation's record, `break`s out of the single-shot loop of
lines 107-127 — and then *falls through* into the continuous loop of
lines 129-189 (there is no return in between), immediately starting a further
`request` invocation (id 1). -/
theorem C7_eval_non_loop_falls_into_overlap_loop :
    mainRun argsOnce [.waits (some (.ok (rN 1))) none]
      = ⟨[.start 0 .single (singleInvArgs (envOf argsOnce)),
          .finish 0 (.ok (rN 1)),
          .emit (rN 1),
          .start 1 .request (reqInvArgs (envOf argsOnce))],
         .running⟩ := by
  rfl

/-- `pipeline_run --loop --stop-after wake --asr-text hi`: a pre-supplied
transcript inconsistent with stopping after the wake stage. -/
def argsBad : Args := { loop := true, stop_after := some "wake", asr_text := some "hi" }

/-- C9 counterexample: an inconsistent pre-supplied stage result (a
transcript while stopping after wake) is *not* detected as a configuration
error before the loop starts — the run proceeds normally (`running`, no
failure) and the transcript is passed into the very first invocation's
arguments together with `stop_after = "wake"`. -/
theorem C9_counterexample_inconsistent_presupplied_passed_through :
    mainRun argsBad [.waits (some (.ok (rN 1))) none]
      = ⟨[.start 0 .single (singleInvArgs (envOf argsBad)),
          .finish 0 (.ok (rN 1)),
          .emit (rN 1)],
         .running⟩
    ∧ (singleInvArgs (envOf argsBad)).asr_transcript = some ⟨"hi"⟩
    ∧ (singleInvArgs (envOf argsBad)).stop_after = some "wake" :=
  ⟨rfl, rfl, rfl⟩

/-- C9 (amended): no validation of the pre-supplied stage results against the
stop-after point exists anywhere in lines 71-107: for every argument vector
with a (truthy) pre-supplied ASR text and `--stop-after wake`, the transcript
is built unchanged into the invocation arguments, and the run's very first
event is the start of an invocation carrying both that transcript and
`stop_after = "wake"`. -/
theorem C9_amended_no_validation (args : Args) (h : truthy args.asr_text = true)
    (hw : args.stop_after = some "wake") (r : PipelineResult) (sched : List SchedStep) :
    (singleInvArgs (envOf args)).asr_transcript = args.asr_text.map Transcript.mk
    ∧ (singleInvArgs (envOf args)).stop_after = some "wake"
    ∧ (mainRun args (.waits (some (.ok r)) none :: sched)).events.head?
        = some (.start 0 .single (singleInvArgs (envOf args))) := by
  refine ⟨by simp [singleInvArgs, envOf, setupLocals, h], by simp [singleInvArgs, envOf, hw], ?_⟩
  unfold mainRun
  dsimp only
  rw [if_pos (Or.inr (Or.inl hw))]
  cases hL : args.loop
  · simp [singleGo]
  · rw [singleGo_cons_ok_true]
    rcases hrec : singleGo (envOf args) true 1 sched with ⟨evs2, t2⟩ | ⟨evs2, m2, r2, rest2⟩ <;>
      simp

/-- C9 witness: the amended statement at the concrete inconsistent argument
vector. -/
theorem C9_amended_witness :
    truthy argsBad.asr_text = true
    ∧ ((singleInvArgs (envOf argsBad)).asr_transcript = argsBad.asr_text.map Transcript.mk
      ∧ (singleInvArgs (envOf argsBad)).stop_after = some "wake"
      ∧ (mainRun argsBad (.waits (some (.ok (rN 51))) none :: [])).events.head?
          = some (.start 0 .single (singleInvArgs (envOf argsBad)))) :=
  ⟨rfl, C9_amended_no_validation argsBad rfl rfl (rN 51) []⟩

/-- C10 witness: the interrupt statement applied to a concrete still-running
run. -/
theorem C10_witness :
    (mainRun argsLoop [.waits (some (.ok (rT 31))) none]).term = .running
    ∧ (mainRun argsLoop ([.waits (some (.ok (rT 31))) none] ++ [.interrupt])
        = ⟨(mainRun argsLoop [.waits (some (.ok (rT 31))) none]).events, .interrupted⟩
      ∧ processExit .interrupted = some (0, false)) :=
  ⟨rfl, C10_keyboard_interrupt argsLoop [.waits (some (.ok (rT 31))) none] rfl⟩


end PipelineRun
